import Mathlib

/-!
Verification of the libby peer-to-peer messaging library.

This file shallowly embeds the parts of the repository that the checked
properties are about:

* `src/libby/zmq_transport.py` — the Direct-Address (ZMQ) transport:
  per-peer lazily created DEALER connections, unicast and broadcast send,
  start/stop lifecycle.
* `src/libby/rabbitmq_transport.py` — the Broker (RabbitMQ) transport:
  start guard, stop, and the consume-path `message_callback`.
* `src/libby/libby.py` — the peer runtime: `Libby.stop` and
  `Libby.wait_for_key`.
* `src/libby/config.py` — `with_env_overrides`'s inner `coerce` function.

Python dictionaries are embedded as insertion-ordered association lists,
python exceptions as `Except`, wall-clock time as integer time stamps, and
ZMQ/pika socket objects as numeric ids handed out by a counter.
-/

/-! ## Generic helpers: python dict / string / exception primitives -/

/-- Embeds python `d.get(k)` on a dict embedded as an insertion-ordered
association list: the value of the unique entry with key `k`, if any. -/
def dictGet {β : Type} (k : String) : List (String × β) → Option β
  | [] => none
  | (k', v) :: rest => if k' = k then some v else dictGet k rest

/-- Embeds python `d[k] = v` on a dict embedded as an association list: replace
the entry in place if the key exists, otherwise append it. -/
def dictSet {β : Type} (k : String) (v : β) : List (String × β) → List (String × β)
  | [] => [(k, v)]
  | (k', v') :: rest => if k' = k then (k, v) :: rest else (k', v') :: dictSet k v rest

/-- Number of entries in an association list carrying the key `k`. -/
def countKey (k : String) (l : List (String × Nat)) : Nat :=
  (l.filter fun q => decide (q.1 = k)).length

/-- Python `s.startswith(pre)`. -/
def strStarts (pre s : String) : Bool :=
  decide (s.data.take pre.data.length = pre.data)

/-- Python `c in s` for a single character `c`. -/
def strContains (c : Char) (s : String) : Bool :=
  decide (c ∈ s.data)

/-- Splits a character list at every occurrence of `c`
(python `s.split(c)` on the character level). -/
def splitOnChar (c : Char) : List Char → List (List Char)
  | [] => [[]]
  | x :: xs =>
    if x = c then [] :: splitOnChar c xs
    else
      match splitOnChar c xs with
      | [] => [[x]]
      | g :: gs => (x :: g) :: gs

/-- Python `s.split(":", 1)[1]`: everything after the first colon.  The
source only evaluates this under a `startswith` guard that guarantees a
colon is present; without one we return `s` (the python code would raise,
but that branch is unreachable). -/
def afterColon (s : String) : String :=
  match splitOnChar ':' s.data with
  | [] => s
  | [_] => s
  | _ :: rest => ⟨List.intercalate [':'] rest⟩

/-- Python `s.strip()`: drop leading and trailing whitespace. -/
def pyStrip (s : String) : String :=
  ⟨((s.data.dropWhile Char.isWhitespace).reverse.dropWhile Char.isWhitespace).reverse⟩

/-- Python `s.lower()` (ASCII case folding, which covers every string the
config code compares against). -/
def pyLower (s : String) : String :=
  ⟨s.data.map Char.toLower⟩

/-- Python `s.split(",")`. -/
def pySplitComma (s : String) : List String :=
  (splitOnChar ',' s.data).map fun l => ⟨l⟩

/-- Python `try: act except Exception: pass` applied to a unit-valued
action: any raised exception is swallowed. -/
def catchAll (act : Except String Unit) : Except String Unit :=
  match act with
  | Except.ok _ => Except.ok ()
  | Except.error _ => Except.ok ()

theorem catchAll_ok (act : Except String Unit) : catchAll act = Except.ok () := by
  cases act <;> rfl

/-! ## Direct-Address (ZMQ) transport: `ZmqTransport.send` / `_new_dealer`

State of one `ZmqTransport` instance as far as sending is concerned:
`book` embeds `self._book` (peer id → endpoint), `dealers` embeds
`self._dealers` (peer id → DEALER socket, sockets numbered by creation
order), and `nextSock` is the supply of fresh socket numbers.

`zmqSend` embeds `ZmqTransport.send(dest, frame)`.  The frame contents
are irrelevant to the control flow and are not carried.  The underlying
`zmq.Socket.send` call is given a failure model `fail : String → Bool`
(does the channel send to this peer id raise?); the python code does not
catch such an exception anywhere inside `send`.  The result is
`(new state, attempted sends as (peer id, socket used), raised?)`. -/

structure ZmqState where
  book : List (String × String)
  dealers : List (String × Nat)
  nextSock : Nat
  deriving DecidableEq, Repr

/-- Embeds `self._dealers.get(peer_id)` / `self._new_dealer(...)` /
`self._dealers[peer_id] = dealer`: return the cached DEALER for `pid`,
or create a fresh one (numbered `nextSock`) and cache it. -/
def getOrCreateDealer (s : ZmqState) (pid _ep : String) : ZmqState × Nat :=
  match dictGet pid s.dealers with
  | some d => (s, d)
  | none =>
    ({ s with dealers := dictSet pid s.nextSock s.dealers,
              nextSock := s.nextSock + 1 },
     s.nextSock)

/-- The `for peer_id, endpoint in self._book.items()` loop of the
`broadcast:` branch of `ZmqTransport.send`.  `dealer.send(frame)` is not
wrapped in any `try`, so a failing send aborts the loop and the
exception propagates. -/
def broadcastLoop (fail : String → Bool) :
    ZmqState → List (String × String) → ZmqState × List (String × Nat) × Bool
  | s, [] => (s, [], false)
  | s, (pid, ep) :: rest =>
    let sd := getOrCreateDealer s pid ep
    if fail pid then (sd.1, [(pid, sd.2)], true)
    else
      let res := broadcastLoop fail sd.1 rest
      (res.1, (pid, sd.2) :: res.2.1, res.2.2)

/-- Embeds `ZmqTransport.send(dest, frame)`. -/
def zmqSend (s : ZmqState) (fail : String → Bool) (dest : String) :
    ZmqState × List (String × Nat) × Bool :=
  if strStarts "peer:" dest then
    let pid := afterColon dest
    match dictGet pid s.book with
    | none => (s, [], false)
    | some ep =>
      if ep = "" then (s, [], false)
      else
        let sd := getOrCreateDealer s pid ep
        (sd.1, [(pid, sd.2)], fail pid)
  else if strStarts "broadcast:" dest then
    broadcastLoop fail s s.book
  else (s, [], false)

/-- Runs `n` successive calls of `ZmqTransport.send(dest, frame)`, collecting
every attempted `(peer id, socket)` send. -/
def iterSend (fail : String → Bool) (dest : String) :
    Nat → ZmqState → ZmqState × List (String × Nat)
  | 0, s => (s, [])
  | n + 1, s =>
    let r1 := zmqSend s fail dest
    let r2 := iterSend fail dest n r1.1
    (r2.1, r1.2.1 ++ r2.2)

/-- The peer ids a broadcast actually attempts, in address-book order:
every id up to and including the first one whose channel send fails. -/
def attemptsUntilFailure (fail : String → Bool) : List String → List String
  | [] => []
  | p :: ps => if fail p then [p] else p :: attemptsUntilFailure fail ps

/-! ## Transport lifecycle: `start()` on both backends

`ZmqTransport.start` clears the stop event and unconditionally creates
and starts a fresh receive thread.  `RabbitMQTransport.start` first
checks `if self._rx_thread and self._rx_thread.is_alive(): return`.
`rxThreads` counts the background receive threads that have been spawned
and whose stop event has not been set (a spawned thread loops
`while not self._stop.is_set()`, so it stays alive until `stop()`). -/

structure ZmqLife where
  stopFlag : Bool
  rxThreads : Nat
  deriving DecidableEq, Repr

/-- State of a `ZmqTransport` right after `__init__` (no receive thread
yet; `Libby.zmq` then calls `start()` once). -/
def zmqLifeInit : ZmqLife := { stopFlag := false, rxThreads := 0 }

/-- Embeds `ZmqTransport.start`. -/
def zmqStart (s : ZmqLife) : ZmqLife :=
  { stopFlag := false, rxThreads := s.rxThreads + 1 }

structure RmqLife where
  stopFlag : Bool
  rxThreads : Nat
  lastThreadAlive : Bool
  deriving DecidableEq, Repr

/-- State of a `RabbitMQTransport` right after `__init__`. -/
def rmqLifeInit : RmqLife := { stopFlag := false, rxThreads := 0, lastThreadAlive := false }

/-- Embeds `RabbitMQTransport.start`. -/
def rmqStart (s : RmqLife) : RmqLife :=
  if s.lastThreadAlive then s
  else { stopFlag := false, rxThreads := s.rxThreads + 1, lastThreadAlive := true }

/-! ## `stop()` paths: `Libby.stop`, `ZmqTransport.stop`, `RabbitMQTransport.stop`

Each fallible underlying operation (socket close, poller unregister,
channel close, the discovery timer's `stop`, the transport's `stop`) is
injected as an arbitrary `Except String Unit`; the embedding reproduces
exactly which of them the source wraps in `try/except: pass`. -/

/-- Embeds `Libby.stop`: `disco` is `some act` when `self._disco` is set,
`tstop` is `some act` when the transport has a `stop` attribute; both
steps are individually wrapped in `try/except: pass`.  Returns the list
of steps that were attempted, in execution order. -/
def libbyStop (disco tstop : Option (Except String Unit)) :
    Except String (List String) := do
  let a1 : List String ←
    match disco with
    | none => pure []
    | some act => do
      let _ ← catchAll act
      pure ["disco.stop"]
  let a2 : List String ←
    match tstop with
    | none => pure []
    | some act => do
      let _ ← catchAll act
      pure ["transport.stop"]
  pure (a1 ++ a2)

/-- Embeds `ZmqTransport.stop`: set the stop event and join the receive thread
(cannot raise), close every cached DEALER under `try/except: pass`,
clear the dealer dict, then unregister the router from the poller and
close the router, each under `try/except: pass`. -/
def zmqStopM (s : ZmqState) (closeSock : Nat → Except String Unit)
    (unregister closeRouter : Except String Unit) : Except String ZmqState := do
  let _ ← (s.dealers.map Prod.snd).foldlM (fun _ sock => catchAll (closeSock sock)) ()
  let _ ← catchAll unregister
  let _ ← catchAll closeRouter
  pure { s with dealers := [] }

/-- Embeds `RabbitMQTransport.stop`: set the stop event and join the receive
thread (cannot raise), then close the send channel if open and the send
connection if open, each under `try/except: pass`. -/
def rmqStopM (chanOpen connOpen : Bool)
    (closeChan closeConn : Except String Unit) : Except String Unit := do
  let _ ← if chanOpen then catchAll closeChan else pure ()
  let _ ← if connOpen then catchAll closeConn else pure ()
  pure ()

/-! ## Broker consume path: `message_callback` in `RabbitMQTransport._rx_loop`

`cb` is `self._cb` (`none` before `on_receive` was called); a registered
callback is a function that may raise (`Except.error`).  `appId` is
`properties.app_id` and `body` the message bytes.  The result is
`(number of basic_ack calls, handler invocations as (source, body))`;
an uncaught exception would surface as `Except.error`. -/

/-- Embeds `properties.app_id if properties.app_id else "unknown"` (an absent
or empty `app_id` is falsy). -/
def srcOf : Option String → String
  | some s => if s = "" then "unknown" else s
  | none => "unknown"

/-- Embeds `message_callback(ch, method, properties, body)`. -/
def message_callback (cb : Option (String → List Nat → Except String Unit))
    (appId : Option String) (body : List Nat) :
    Except String (Nat × List (String × List Nat)) :=
  match cb with
  | none => Except.ok (1, [])
  | some f => do
    let src := srcOf appId
    let _ ← catchAll (f ("peer:" ++ src) body)
    Except.ok (1, [("peer:" ++ src, body)])

/-! ## Consume-loop runs: deliveries interleaved with `on_receive`

A whole-run view of the broker consume path: the queue hands the
consumer a sequence of deliveries, interleaved with at most one
`on_receive` registration from the application.  Each delivery goes
through `message_callback` with the callback registered at that moment. -/

inductive RmqEvent where
  | deliver (appId : Option String) (body : List Nat)
  | setCb
  deriving DecidableEq, Repr

structure ConsumerState where
  cbSet : Bool
  handled : List (String × List Nat)
  acks : Nat
  deriving DecidableEq, Repr

def consumerInit : ConsumerState := { cbSet := false, handled := [], acks := 0 }

/-- One consume-loop event: a delivery runs `message_callback` (ack
always; hand to the handler only when a callback is registered),
`setCb` is the application calling `on_receive`. -/
def rmqStep (s : ConsumerState) : RmqEvent → ConsumerState
  | RmqEvent.setCb => { s with cbSet := true }
  | RmqEvent.deliver appId body =>
    if s.cbSet then
      { s with handled := s.handled ++ [("peer:" ++ srcOf appId, body)],
               acks := s.acks + 1 }
    else
      { s with acks := s.acks + 1 }

def rmqRun (s : ConsumerState) (es : List RmqEvent) : ConsumerState :=
  es.foldl rmqStep s

def deliverCount (es : List RmqEvent) : Nat :=
  (es.filter fun e =>
    match e with
    | RmqEvent.deliver _ _ => true
    | RmqEvent.setCb => false).length

/-! ## `Libby.wait_for_key`

`wait_for_key(peer, key, timeout_s, poll_s)` computed over an idealized
integer clock that starts at 0 and advances by exactly `poll_s` per
`time.sleep(poll_s)`.  `pred t` is `self.knows_key(peer_id, key)`
evaluated at time `t`.  `waitPoll` carries fuel so the definition is
structurally recursive; `timeout_s.toNat + 1` units are always enough
when `poll_s ≥ 1`.  The result records `(returned value, number of
predicate evaluations, time of return)`; `none` is fuel exhaustion,
which the `wait_for_key` theorems show never happens. -/

def waitPoll (pred : Int → Bool) (deadline p : Int) : Nat → Int → Option (Bool × Nat × Int)
  | 0, _ => none
  | fuel + 1, t =>
    if t < deadline then
      if pred t then some (true, 1, t)
      else
        match waitPoll pred deadline p fuel (t + p) with
        | none => none
        | some (r, n, tf) => some (r, n + 1, tf)
    else some (false, 0, t)

/-- Embeds `Libby.wait_for_key` with `timeout_s` and `poll_s` as integers:
`deadline = time.time() + timeout_s` with the call made at time 0. -/
def wait_for_key (pred : Int → Bool) (timeout_s poll_s : Int) :
    Option (Bool × Nat × Int) :=
  waitPoll pred timeout_s poll_s (timeout_s.toNat + 1) 0

/-! ## Config env-override coercion: `coerce` in `with_env_overrides`

A coerced value is a python bool, int, float, list of strings, or
string.  Python floats are embedded as exact rationals; `pyFloat`
models `float(s)` on plain decimal literals `[sign] digits [. digits]`
(the only float shapes the coercion claims touch; exponent forms and
the named specials are not modelled and fall back to "does not parse"). -/

inductive PyVal where
  | vBool (b : Bool)
  | vInt (z : Int)
  | vFloat (q : ℚ)
  | vList (xs : List String)
  | vStr (s : String)
  deriving DecidableEq, Repr

/-- Value of a nonempty all-digit character list. -/
def digitsVal : List Char → Option Nat
  | [] => none
  | l =>
    if l.all Char.isDigit then
      some (l.foldl (fun acc c => acc * 10 + (c.toNat - '0'.toNat)) 0)
    else none

/-- Python `int(s)` on a stripped string: optional sign, then digits. -/
def pyInt (s : String) : Option Int :=
  match s.data with
  | '-' :: rest => (digitsVal rest).map fun n => -(n : Int)
  | '+' :: rest => (digitsVal rest).map fun n => (n : Int)
  | l => (digitsVal l).map fun n => (n : Int)

/-- Python `float(s)` on plain decimal literals (see section header). -/
def pyFloat (s : String) : Option ℚ :=
  let core : List Char → Option ℚ := fun l =>
    match splitOnChar '.' l with
    | [a] => (digitsVal a).map fun n => (n : ℚ)
    | [a, b] =>
      match digitsVal (a ++ b) with
      | some n => some ((n : ℚ) / (10 : ℚ) ^ b.length)
      | none => none
    | _ => none
  match s.data with
  | '-' :: rest => (core rest).map fun q => -q
  | '+' :: rest => core rest
  | l => core l

/-- The body of `coerce` after `s = v.strip()`. -/
def coerceCore (s : String) : PyVal :=
  let ls := pyLower s
  if ls = "true" ∨ ls = "1" ∨ ls = "yes" ∨ ls = "on" then PyVal.vBool true
  else if ls = "false" ∨ ls = "0" ∨ ls = "no" ∨ ls = "off" then PyVal.vBool false
  else if strContains ',' s then PyVal.vList ((pySplitComma s).map pyStrip)
  else if strContains '.' s then
    match pyFloat s with
    | some q => PyVal.vFloat q
    | none => PyVal.vStr s
  else
    match pyInt s with
    | some z => PyVal.vInt z
    | none => PyVal.vStr s

/-- Embeds `coerce(v)` from `with_env_overrides` in `src/libby/config.py`. -/
def coerce (v : String) : PyVal :=
  coerceCore (pyStrip v)

/-! ## Association-list lemmas -/

theorem dictGet_dictSet_self {β : Type} (k : String) (v : β) :
    ∀ l : List (String × β), dictGet k (dictSet k v l) = some v := by
  intro l
  induction l with
  | nil => simp [dictGet, dictSet]
  | cons e rest ih =>
    by_cases h : e.1 = k
    · simp [dictGet, dictSet, h]
    · simp [dictGet, dictSet, h, ih]

theorem countKey_of_dictGet_none (k : String) :
    ∀ l : List (String × Nat), dictGet k l = none → countKey k l = 0 := by
  intro l
  induction l with
  | nil => intro _; rfl
  | cons e rest ih =>
    intro h
    by_cases he : e.1 = k
    · simp [dictGet, he] at h
    · simp [dictGet, he] at h
      simp [countKey, List.filter, he] at ih ⊢
      exact ih h

theorem countKey_dictSet_of_none (k : String) (v : Nat) :
    ∀ l : List (String × Nat), dictGet k l = none →
      countKey k (dictSet k v l) = 1 := by
  intro l
  induction l with
  | nil => intro _; simp [countKey, dictSet]
  | cons e rest ih =>
    intro h
    by_cases he : e.1 = k
    · simp [dictGet, he] at h
    · simp [dictGet, he] at h
      have : dictSet k v (e :: rest) = e :: dictSet k v rest := by
        cases e with
        | mk k' v' => simp [dictSet]; intro hk; exact absurd hk he
      rw [this]
      simp [countKey, List.filter, he] at ih ⊢
      exact ih h

/-! ## C1 — Direct-Address broadcast under an injected send failure -/

theorem broadcastLoop_spec (fail : String → Bool) :
    ∀ (entries : List (String × String)) (s : ZmqState),
      ((broadcastLoop fail s entries).2.1).map Prod.fst
          = attemptsUntilFailure fail (entries.map Prod.fst)
        ∧ (broadcastLoop fail s entries).2.2 = (entries.map Prod.fst).any fail := by
  intro entries
  induction entries with
  | nil => intro s; simp [broadcastLoop, attemptsUntilFailure]
  | cons e rest ih =>
    intro s
    obtain ⟨pid, ep⟩ := e
    by_cases hf : fail pid
    · simp [broadcastLoop, attemptsUntilFailure, hf]
    · simp [broadcastLoop, attemptsUntilFailure, hf,
        (ih (getOrCreateDealer s pid ep).1).1, (ih (getOrCreateDealer s pid ep).1).2]

/-- C1 counterexample.  Address book `{a, b}`, no cached dealers; the
channel send to `a` fails.  The claim asserts that the broadcast still
attempts delivery to `b` and does not raise; in fact `b` is never
attempted and the exception propagates out of `send`. -/
theorem zmq_broadcast_failure_cex :
    ¬ ("b" ∈ ((zmqSend ⟨[("a", "tcp://h1:1"), ("b", "tcp://h2:1")], [], 0⟩
          (fun p => p == "a") "broadcast:*").2.1).map Prod.fst)
      ∧ (zmqSend ⟨[("a", "tcp://h1:1"), ("b", "tcp://h2:1")], [], 0⟩
          (fun p => p == "a") "broadcast:*").2.2 = true := by
  decide

/-- C1, amended.  A broadcast send walks the address book in order with
the get-or-create dealer mechanism, but send attempts are NOT
independent: the entries attempted are exactly those up to and
including the first entry whose channel send fails, any entries after
it receive no attempt, and the call raises exactly when some attempted
send fails.  (When no send fails, all N entries are attempted and
nothing is raised.) -/
theorem zmq_broadcast_attempts_spec (s : ZmqState) (fail : String → Bool) :
    ((zmqSend s fail "broadcast:*").2.1).map Prod.fst
        = attemptsUntilFailure fail (s.book.map Prod.fst)
      ∧ (zmqSend s fail "broadcast:*").2.2 = (s.book.map Prod.fst).any fail := by
  have h1 : strStarts "peer:" "broadcast:*" = false := by decide
  have h2 : strStarts "broadcast:" "broadcast:*" = true := by decide
  simp only [zmqSend, h1, h2, Bool.false_eq_true, if_false, if_true]
  exact broadcastLoop_spec fail s.book s

/-! ## C2 — `start()` idempotence across backends -/

/-- C2 counterexample.  On the Direct-Address (ZMQ) transport, calling
`start()` when the transport is already started is not idempotent: a
second `start()` spawns a second background receive thread, so two
receive contexts are live afterwards, not one. -/
theorem start_twice_cex :
    zmqStart (zmqStart zmqLifeInit) ≠ zmqStart zmqLifeInit
      ∧ (zmqStart (zmqStart zmqLifeInit)).rxThreads = 2
      ∧ ¬ (zmqStart (zmqStart zmqLifeInit)).rxThreads = 1 := by
  decide

/-- C2, amended.  Only the Broker (RabbitMQ) backend has an idempotent
`start()`: it returns immediately when the receive thread is alive, and
exactly one receive thread exists after repeated starts.  The ZMQ
backend's `start()` unconditionally clears the stop event and spawns a
fresh receive thread, so each extra call adds one live receive
thread. -/
theorem start_twice_amended :
    (∀ s : RmqLife, rmqStart (rmqStart s) = rmqStart s)
      ∧ (rmqStart (rmqStart rmqLifeInit)).rxThreads = 1
      ∧ (∀ s : ZmqLife,
          zmqStart (zmqStart s) = { stopFlag := false, rxThreads := s.rxThreads + 2 }) := by
  refine ⟨?_, by decide, ?_⟩
  · intro s
    by_cases h : s.lastThreadAlive <;> simp [rmqStart, h]
  · intro s
    rfl

/-! ## C3 — unicast send to a peer id absent from the address book -/

/-- C3.  For a destination `"peer:<P>"` whose peer id `P` is not in the
address book, `send` returns having attempted nothing, raised nothing,
created no connection, and left the whole transport state (address book
and connection cache included) unchanged. -/
theorem zmq_send_unknown_peer_noop (s : ZmqState) (fail : String → Bool) (dest : String)
    (hd : strStarts "peer:" dest = true)
    (hb : dictGet (afterColon dest) s.book = none) :
    zmqSend s fail dest = (s, [], false) := by
  simp [zmqSend, hd, hb]

/-! ## C4 — one cached outbound connection per destination peer -/

/-- A unicast send whose peer id has no cached dealer creates one fresh
dealer (socket `s.nextSock`), caches it, and attempts the send on it. -/
theorem zmqSend_create (s : ZmqState) (fail : String → Bool) (dest ep : String)
    (hd : strStarts "peer:" dest = true)
    (hb : dictGet (afterColon dest) s.book = some ep)
    (hne : ep ≠ "")
    (hc : dictGet (afterColon dest) s.dealers = none) :
    zmqSend s fail dest =
      ({ s with dealers := dictSet (afterColon dest) s.nextSock s.dealers,
                nextSock := s.nextSock + 1 },
       [(afterColon dest, s.nextSock)], fail (afterColon dest)) := by
  simp [zmqSend, hd, hb, hne, getOrCreateDealer, hc]

/-- A unicast send whose peer id already has a cached dealer reuses it
and leaves the transport state entirely unchanged. -/
theorem zmqSend_cached (s : ZmqState) (fail : String → Bool) (dest ep : String) (d : Nat)
    (hd : strStarts "peer:" dest = true)
    (hb : dictGet (afterColon dest) s.book = some ep)
    (hne : ep ≠ "")
    (hc : dictGet (afterColon dest) s.dealers = some d) :
    zmqSend s fail dest = (s, [(afterColon dest, d)], fail (afterColon dest)) := by
  simp [zmqSend, hd, hb, hne, getOrCreateDealer, hc]

theorem iterSend_cached (fail : String → Bool) (dest ep : String) (d : Nat)
    (hd : strStarts "peer:" dest = true) :
    ∀ (m : Nat) (s : ZmqState),
      dictGet (afterColon dest) s.book = some ep → ep ≠ "" →
      dictGet (afterColon dest) s.dealers = some d →
      iterSend fail dest m s = (s, List.replicate m (afterColon dest, d)) := by
  intro m
  induction m with
  | zero => intro s _ _ _; rfl
  | succ m ih =>
    intro s hb hne hc
    simp only [iterSend, zmqSend_cached s fail dest ep d hd hb hne hc,
      ih s hb hne hc, List.replicate_succ]
    rfl

/-- C4.  For a peer id `P` present in the address book with no cached
dealer, any positive number of sends to `"peer:<P>"` creates exactly one
dealer: the first send creates and caches socket `s.nextSock`, every one
of the `n + 1` attempted channel sends uses that same socket, the
connection cache holds exactly one entry for `P` afterwards, and the
address book is untouched. -/
theorem zmq_send_single_connection (s : ZmqState) (fail : String → Bool) (dest ep : String)
    (hd : strStarts "peer:" dest = true)
    (hb : dictGet (afterColon dest) s.book = some ep)
    (hne : ep ≠ "")
    (hc : dictGet (afterColon dest) s.dealers = none) :
    ∀ n : Nat,
      (iterSend fail dest (n + 1) s).1
          = { s with dealers := dictSet (afterColon dest) s.nextSock s.dealers,
                     nextSock := s.nextSock + 1 }
        ∧ (iterSend fail dest (n + 1) s).2
            = List.replicate (n + 1) (afterColon dest, s.nextSock)
        ∧ countKey (afterColon dest) (iterSend fail dest (n + 1) s).1.dealers = 1
        ∧ (iterSend fail dest (n + 1) s).1.book = s.book := by
  intro n
  have hstep := zmqSend_create s fail dest ep hd hb hne hc
  have hrest := iterSend_cached fail dest ep s.nextSock hd n
    { s with dealers := dictSet (afterColon dest) s.nextSock s.dealers,
             nextSock := s.nextSock + 1 }
    hb hne (dictGet_dictSet_self (afterColon dest) s.nextSock s.dealers)
  have hiter : iterSend fail dest (n + 1) s
      = ({ s with dealers := dictSet (afterColon dest) s.nextSock s.dealers,
                  nextSock := s.nextSock + 1 },
         List.replicate (n + 1) (afterColon dest, s.nextSock)) := by
    simp only [iterSend, hstep, hrest, List.replicate_succ]
    rfl
  rw [hiter]
  exact ⟨rfl, rfl, countKey_dictSet_of_none (afterColon dest) s.nextSock s.dealers hc, rfl⟩

/-- C4 witness: two sends to `"peer:b"` on a fresh transport with `b` in
the address book — one dealer created, both sends on socket 0. -/
theorem zmq_send_single_connection_w :
    (iterSend (fun _ => false) "peer:b" 2 ⟨[("b", "tcp://x:1")], [], 0⟩).1
        = ⟨[("b", "tcp://x:1")], [("b", 0)], 1⟩
      ∧ (iterSend (fun _ => false) "peer:b" 2 ⟨[("b", "tcp://x:1")], [], 0⟩).2
          = List.replicate 2 ("b", 0)
      ∧ countKey "b" (iterSend (fun _ => false) "peer:b" 2 ⟨[("b", "tcp://x:1")], [], 0⟩).1.dealers = 1 := by
  have h := zmq_send_single_connection ⟨[("b", "tcp://x:1")], [], 0⟩ (fun _ => false)
    "peer:b" "tcp://x:1" (by decide) (by decide) (by decide) (by decide) 1
  exact ⟨h.1, h.2.1, h.2.2.1⟩

/-- C3 witness: peer id `zz` is not in the one-entry address book; the
send is a complete no-op. -/
theorem zmq_send_unknown_peer_noop_w :
    strStarts "peer:" "peer:zz" = true
      ∧ zmqSend ⟨[("b", "tcp://x:1")], [], 0⟩ (fun _ => false) "peer:zz"
          = (⟨[("b", "tcp://x:1")], [], 0⟩, [], false) :=
  ⟨by decide,
   zmq_send_unknown_peer_noop ⟨[("b", "tcp://x:1")], [], 0⟩ (fun _ => false) "peer:zz"
     (by decide) (by decide)⟩

/-! ## C5 — acknowledge-always on the broker consume path -/

/-- C5.  `message_callback` acknowledges every inbound message exactly
once and never lets an exception escape: for every registered-or-absent
callback the result is `ok` with ack count 1, and in particular a
handler that raises is still invoked once, swallowed, and the message
still acknowledged once. -/
theorem rmq_ack_always :
    ∀ (cb : Option (String → List Nat → Except String Unit))
      (appId : Option String) (body : List Nat),
      (∃ calls, message_callback cb appId body = Except.ok (1, calls))
        ∧ ∀ e : String,
            message_callback (some fun _ _ => Except.error e) appId body
              = Except.ok (1, [("peer:" ++ srcOf appId, body)]) := by
  intro cb appId body
  constructor
  · cases cb with
    | none => exact ⟨[], rfl⟩
    | some f =>
      refine ⟨[("peer:" ++ srcOf appId, body)], ?_⟩
      simp only [message_callback, catchAll_ok]
      rfl
  · intro e
    simp only [message_callback, catchAll]
    rfl

/-! ## C6 — `stop()` is safe to repeat and its steps are isolated -/

theorem foldlM_ok :
    ∀ l : List Nat,
      l.foldlM (fun (_ : Unit) (_ : Nat) => (Except.ok () : Except String Unit)) ()
        = Except.ok () := by
  intro l
  induction l with
  | nil => rfl
  | cons x xs ih => exact ih

theorem foldl_catchAll (closeSock : Nat → Except String Unit) :
    ∀ l : List Nat,
      l.foldlM (fun _ sock => catchAll (closeSock sock)) () = Except.ok () := by
  intro l
  have h : (fun (_ : Unit) (sock : Nat) => catchAll (closeSock sock))
      = fun _ _ => Except.ok () := by
    funext a b
    exact catchAll_ok _
  rw [h]
  exact foldlM_ok l

/-- C6.  `Libby.stop` never raises and always attempts the discovery
step (when a discovery timer exists) strictly before the transport
step, whatever exceptions the two underlying `stop` calls raise — each
step is isolated by its own `try/except: pass`.  Both transport
backends' `stop` methods likewise never raise, for arbitrary failures
of the underlying close/unregister operations, so calling `stop()`
twice in sequence never raises (the second ZMQ `stop` runs on the
dealer-free state the first one leaves behind). -/
theorem stop_twice_never_raises :
    (∀ disco tstop : Option (Except String Unit),
        libbyStop disco tstop
          = Except.ok
              ((match disco with | none => [] | some _ => ["disco.stop"])
                ++ (match tstop with | none => [] | some _ => ["transport.stop"])))
      ∧ (∀ (s : ZmqState) (closeSock : Nat → Except String Unit)
          (unregister closeRouter : Except String Unit),
          zmqStopM s closeSock unregister closeRouter
              = Except.ok { s with dealers := [] }
            ∧ zmqStopM { s with dealers := [] } closeSock unregister closeRouter
                = Except.ok { s with dealers := [] })
      ∧ (∀ (chanOpen connOpen : Bool) (closeChan closeConn : Except String Unit),
          rmqStopM chanOpen connOpen closeChan closeConn = Except.ok ()) := by
  refine ⟨?_, ?_, ?_⟩
  · intro disco tstop
    cases disco <;> cases tstop <;> simp only [libbyStop, catchAll_ok] <;> rfl
  · intro s closeSock unregister closeRouter
    constructor
    · simp only [zmqStopM, catchAll_ok, foldlM_ok]
      rfl
    · simp only [zmqStopM, catchAll_ok, foldlM_ok]
      rfl
  · intro chanOpen connOpen closeChan closeConn
    cases chanOpen <;> cases connOpen <;>
      simp only [rmqStopM, catchAll_ok] <;> rfl

/-! ## C7 / C8 — `wait_for_key` as a bounded poll loop -/

theorem waitPoll_total (pred : Int → Bool) (deadline p : Int) (hp : 1 ≤ p) :
    ∀ (fuel : Nat) (t : Int), (deadline - t).toNat < fuel →
      ∃ r n tf, waitPoll pred deadline p fuel t = some (r, n, tf)
        ∧ (r = true ↔ ∃ k : Nat, t + (k : Int) * p < deadline ∧ pred (t + (k : Int) * p) = true)
        ∧ (r = true → tf < deadline)
        ∧ (r = false → deadline ≤ tf ∧ (tf = t ∨ tf < deadline + p)) := by
  intro fuel
  induction fuel with
  | zero => intro t ht; omega
  | succ fuel ih =>
    intro t ht
    by_cases hlt : t < deadline
    · by_cases hpred : pred t = true
      · refine ⟨true, 1, t, ?_, ?_, ?_, ?_⟩
        · simp [waitPoll, hlt, hpred]
        · constructor
          · intro _
            exact ⟨0, by simpa using hlt, by simpa using hpred⟩
          · intro _; rfl
        · intro _; exact hlt
        · intro h; exact absurd h (by decide)
      · have hfuel : (deadline - (t + p)).toNat < fuel := by omega
        obtain ⟨r, n, tf, heq, hiff, htru, hfls⟩ := ih (t + p) hfuel
        refine ⟨r, n + 1, tf, ?_, ?_, htru, ?_⟩
        · simp [waitPoll, hlt, hpred, heq]
        · rw [hiff]
          constructor
          · rintro ⟨k, hk1, hk2⟩
            refine ⟨k + 1, ?_, ?_⟩
            · have hc : t + ((k + 1 : Nat) : Int) * p = t + p + (k : Int) * p := by
                push_cast
                ring
              rw [hc]
              exact hk1
            · have hc : t + ((k + 1 : Nat) : Int) * p = t + p + (k : Int) * p := by
                push_cast
                ring
              rw [hc]
              exact hk2
          · rintro ⟨k, hk1, hk2⟩
            cases k with
            | zero =>
              exact absurd (by simpa using hk2) hpred
            | succ k =>
              refine ⟨k, ?_, ?_⟩
              · have hc : t + ((k + 1 : Nat) : Int) * p = t + p + (k : Int) * p := by
                  push_cast
                  ring
              
                rw [hc] at hk1
                exact hk1
              · have hc : t + ((k + 1 : Nat) : Int) * p = t + p + (k : Int) * p := by
                  push_cast
                  ring
                rw [hc] at hk2
                exact hk2
        · intro hrf
          obtain ⟨h1, h2⟩ := hfls hrf
          refine ⟨h1, Or.inr ?_⟩
          rcases h2 with h2 | h2
          · omega
          · exact h2
    · refine ⟨false, 0, t, ?_, ?_, ?_, ?_⟩
      · simp [waitPoll, hlt]
      · constructor
        · intro h; exact absurd h (by decide)
        · rintro ⟨k, hk1, _⟩
          have hkp : (0 : Int) ≤ (k : Int) * p := by positivity
          exact absurd hk1 (by omega)
      · intro h; exact absurd h (by decide)
      · intro _
        exact ⟨by omega, Or.inl rfl⟩

/-- C7.  With a positive poll interval and a nonnegative timeout,
`wait_for_key` always returns (it never raises), it returns `true`
exactly when the predicate holds at one of the poll instants
`0, p, 2p, …` that fall strictly before the deadline `T` (and `false`
otherwise), and it returns at a time strictly earlier than `T` plus one
poll interval. -/
theorem wait_for_key_bounded (pred : Int → Bool) (T p : Int) (hp : 1 ≤ p) (hT : 0 ≤ T) :
    ∃ r n tf, wait_for_key pred T p = some (r, n, tf)
      ∧ (r = true ↔ ∃ k : Nat, (k : Int) * p < T ∧ pred ((k : Int) * p) = true)
      ∧ tf < T + p := by
  obtain ⟨r, n, tf, heq, hiff, htru, hfls⟩ :=
    waitPoll_total pred T p hp (T.toNat + 1) 0 (by omega)
  refine ⟨r, n, tf, heq, by simpa using hiff, ?_⟩
  cases r with
  | true =>
    have := htru rfl
    omega
  | false =>
    obtain ⟨h1, h2⟩ := hfls rfl
    rcases h2 with h2 | h2
    · omega
    · exact h2

/-- C7 witness: `T = 5`, `p = 2`, predicate true from time 2 on —
the wait returns `true` after two checks at time 2 `< 5 + 2`. -/
theorem wait_for_key_bounded_w :
    (1 : Int) ≤ 2 ∧ (0 : Int) ≤ 5
      ∧ ∃ r n tf, wait_for_key (fun t => decide (2 ≤ t)) 5 2 = some (r, n, tf)
          ∧ (r = true ↔ ∃ k : Nat, (k : Int) * 2 < 5 ∧ decide (2 ≤ (k : Int) * 2) = true)
          ∧ tf < 5 + 2 :=
  ⟨by decide, by decide,
   wait_for_key_bounded (fun t => decide (2 ≤ t)) 5 2 (by decide) (by decide)⟩

/-- C8.  A call with `timeout_s ≤ 0` computes a deadline that is not in
the future, so the poll loop body never runs: `wait_for_key` returns
`false` at time 0 after zero evaluations of the predicate — even a
predicate that is already true everywhere is never consulted. -/
theorem wait_for_key_nonpos (pred : Int → Bool) (T p : Int) (hT : T ≤ 0) :
    wait_for_key pred T p = some (false, 0, 0) := by
  have h0 : T.toNat = 0 := Int.toNat_of_nonpos hT
  have h1 : ¬ ((0 : Int) < T) := by omega
  simp [wait_for_key, h0, waitPoll, h1]

/-- C8 witness: timeout 0 with an always-true predicate still yields
`false` with zero predicate evaluations. -/
theorem wait_for_key_nonpos_w :
    (0 : Int) ≤ 0 ∧ wait_for_key (fun _ => true) 0 5 = some (false, 0, 0) :=
  ⟨by decide, wait_for_key_nonpos (fun _ => true) 0 5 (by decide)⟩

/-! ## C9 — deliveries before `on_receive` are acked and discarded -/

theorem rmqRun_no_cb :
    ∀ es : List RmqEvent, (∀ e ∈ es, e ≠ RmqEvent.setCb) →
      ∀ s : ConsumerState, s.cbSet = false →
        rmqRun s es = { s with acks := s.acks + deliverCount es } := by
  intro es
  induction es with
  | nil =>
    intro _ s _
    simp [rmqRun, deliverCount]
  | cons e rest ih =>
    intro h s hs
    cases e with
    | setCb => exact absurd rfl (h _ (by simp))
    | deliver a b =>
      have h' : ∀ e ∈ rest, e ≠ RmqEvent.setCb := fun e he => h e (by simp [he])
      have hstep : rmqStep s (RmqEvent.deliver a b) = { s with acks := s.acks + 1 } := by
        simp [rmqStep, hs]
      have hcount : deliverCount (RmqEvent.deliver a b :: rest) = deliverCount rest + 1 := by
        simp [deliverCount]
      simp only [rmqRun, List.foldl_cons] at ih ⊢
      rw [hstep, ih h' { s with acks := s.acks + 1 } hs, hcount]
      congr 1
      dsimp only
      omega

theorem rmqRun_handled_growth :
    ∀ (es : List RmqEvent) (s : ConsumerState),
      ((rmqRun s es).handled).length ≤ s.handled.length + deliverCount es := by
  intro es
  induction es with
  | nil => intro s; simp [rmqRun, deliverCount]
  | cons e rest ih =>
    intro s
    simp only [rmqRun, List.foldl_cons] at ih ⊢
    cases e with
    | setCb =>
      have h1 := ih (rmqStep s RmqEvent.setCb)
      have h2 : (rmqStep s RmqEvent.setCb).handled = s.handled := by simp [rmqStep]
      have h3 : deliverCount (RmqEvent.setCb :: rest) = deliverCount rest := by
        simp [deliverCount]
      rw [h2] at h1
      omega
    | deliver a b =>
      have h1 := ih (rmqStep s (RmqEvent.deliver a b))
      have h2 : (rmqStep s (RmqEvent.deliver a b)).handled.length ≤ s.handled.length + 1 := by
        by_cases hcb : s.cbSet <;> simp [rmqStep, hcb]
      have h3 : deliverCount (RmqEvent.deliver a b :: rest) = deliverCount rest + 1 := by
        simp [deliverCount]
      omega

/-- C9.  While no callback is registered, a run of the consume loop
acknowledges every delivery (one ack per delivery) and hands nothing to
any handler; the state after such a run is the clean no-callback state,
so continuing the run — even one that then registers a callback — can
only ever hand over deliveries that arrive after the registration: the
earlier messages are gone for good. -/
theorem rmq_unregistered_discard (es rest : List RmqEvent)
    (h : ∀ e ∈ es, e ≠ RmqEvent.setCb) :
    (rmqRun consumerInit es).handled = []
      ∧ (rmqRun consumerInit es).acks = deliverCount es
      ∧ rmqRun consumerInit (es ++ rest) = rmqRun (rmqRun consumerInit es) rest
      ∧ ((rmqRun consumerInit (es ++ rest)).handled).length ≤ deliverCount rest := by
  have hrun := rmqRun_no_cb es h consumerInit rfl
  have happ : rmqRun consumerInit (es ++ rest) = rmqRun (rmqRun consumerInit es) rest := by
    simp [rmqRun, List.foldl_append]
  refine ⟨?_, ?_, happ, ?_⟩
  · rw [hrun]
    rfl
  · rw [hrun]
    simp [consumerInit]
  · rw [happ, hrun]
    have hg := rmqRun_handled_growth rest
      { consumerInit with acks := consumerInit.acks + deliverCount es }
    simpa [consumerInit] using hg

/-- C9 witness: one delivery before registration, then `on_receive`,
then one more delivery — the first message is acked but never handled. -/
theorem rmq_unregistered_discard_w :
    (rmqRun consumerInit [RmqEvent.deliver (some "a") [1, 2]]).handled = []
      ∧ (rmqRun consumerInit [RmqEvent.deliver (some "a") [1, 2]]).acks
          = deliverCount [RmqEvent.deliver (some "a") [1, 2]]
      ∧ rmqRun consumerInit
            ([RmqEvent.deliver (some "a") [1, 2]] ++ [RmqEvent.setCb, RmqEvent.deliver none [3]])
          = rmqRun (rmqRun consumerInit [RmqEvent.deliver (some "a") [1, 2]])
              [RmqEvent.setCb, RmqEvent.deliver none [3]]
      ∧ ((rmqRun consumerInit
            ([RmqEvent.deliver (some "a") [1, 2]] ++ [RmqEvent.setCb, RmqEvent.deliver none [3]])).handled).length
          ≤ deliverCount [RmqEvent.setCb, RmqEvent.deliver none [3]] :=
  rmq_unregistered_discard _ _ (by decide)

/-! ## C10 — env-override coercion: booleans before numbers, commas before numbers -/

theorem comma_mem_of_pyLower (s w : String) (h : pyLower s = w) (hc : ',' ∈ s.data) :
    ',' ∈ w.data := by
  have hd : s.data.map Char.toLower = w.data := congrArg String.data h
  have hmem : Char.toLower ',' ∈ s.data.map Char.toLower := List.mem_map_of_mem _ hc
  rw [hd] at hmem
  have hcomma : Char.toLower ',' = ',' := by decide
  rwa [hcomma] at hmem

theorem coerceCore_true (s : String)
    (h : pyLower s = "true" ∨ pyLower s = "1" ∨ pyLower s = "yes" ∨ pyLower s = "on") :
    coerceCore s = PyVal.vBool true := by
  simp only [coerceCore]
  rw [if_pos h]

theorem coerceCore_false (s : String)
    (h : pyLower s = "false" ∨ pyLower s = "0" ∨ pyLower s = "no" ∨ pyLower s = "off") :
    coerceCore s = PyVal.vBool false := by
  have hne : ¬ (pyLower s = "true" ∨ pyLower s = "1" ∨ pyLower s = "yes" ∨ pyLower s = "on") := by
    intro contra
    rcases h with h | h | h | h <;> rcases contra with c | c | c | c <;>
      (rw [h] at c; exact absurd c (by decide))
  simp only [coerceCore]
  rw [if_neg hne, if_pos h]

theorem coerceCore_comma (s : String) (h : strContains ',' s = true) :
    coerceCore s = PyVal.vList ((pySplitComma s).map pyStrip) := by
  have hc : ',' ∈ s.data := of_decide_eq_true h
  have h1 : ¬ (pyLower s = "true" ∨ pyLower s = "1" ∨ pyLower s = "yes" ∨ pyLower s = "on") := by
    intro contra
    rcases contra with c | c | c | c <;>
      exact absurd (comma_mem_of_pyLower s _ c hc) (by decide)
  have h2 : ¬ (pyLower s = "false" ∨ pyLower s = "0" ∨ pyLower s = "no" ∨ pyLower s = "off") := by
    intro contra
    rcases contra with c | c | c | c <;>
      exact absurd (comma_mem_of_pyLower s _ c hc) (by decide)
  simp only [coerceCore]
  rw [if_neg h1, if_neg h2, if_pos h]

/-- C10.  In `coerce`, boolean recognition runs first on the trimmed,
lower-cased value: any of `true/1/yes/on` yields the boolean `True` and
any of `false/0/no/off` yields `False` — in particular the strings `"1"`
and `"0"` become booleans, never the integers 1 and 0.  Any value whose
trimmed form contains a comma (such a value can never be one of the
boolean words) is split on commas into a list of trimmed strings before
any numeric parsing is attempted. -/
theorem coerce_bool_comma_precedence (v : String) :
    ((pyLower (pyStrip v) = "true" ∨ pyLower (pyStrip v) = "1"
        ∨ pyLower (pyStrip v) = "yes" ∨ pyLower (pyStrip v) = "on") →
      coerce v = PyVal.vBool true)
    ∧ ((pyLower (pyStrip v) = "false" ∨ pyLower (pyStrip v) = "0"
        ∨ pyLower (pyStrip v) = "no" ∨ pyLower (pyStrip v) = "off") →
      coerce v = PyVal.vBool false)
    ∧ (strContains ',' (pyStrip v) = true →
        coerce v = PyVal.vList ((pySplitComma (pyStrip v)).map pyStrip))
    ∧ coerce "1" = PyVal.vBool true
    ∧ coerce "0" = PyVal.vBool false :=
  ⟨fun h => coerceCore_true (pyStrip v) h,
   fun h => coerceCore_false (pyStrip v) h,
   fun h => coerceCore_comma (pyStrip v) h,
   by decide, by decide⟩

/-- C10 witness: `" True "` (trimmed, case-folded) is boolean `True`,
`"off"` is boolean `False`, and `"a, b"` splits into trimmed strings. -/
theorem coerce_bool_comma_precedence_w :
    coerce " True " = PyVal.vBool true
      ∧ coerce "off" = PyVal.vBool false
      ∧ coerce "a, b" = PyVal.vList ((pySplitComma (pyStrip "a, b")).map pyStrip) :=
  ⟨(coerce_bool_comma_precedence " True ").1 (by decide),
   (coerce_bool_comma_precedence "off").2.1 (by decide),
   (coerce_bool_comma_precedence "a, b").2.2.1 (by decide)⟩
